import Mathlib

/-!
Verification of the contact-book core of `task_1.py`: validated field
types (`Name`, `Phone`, `Birthday`), `Record` phone operations, and the
birthday scheduler `get_upcoming_birthdays`.

Python strings are modelled as `List Char`; `datetime.date` is modelled
by the structure `PDate` below together with the proleptic-Gregorian
calendar functions that Python's `datetime` module implements (leap
years, month lengths, ordinal day numbers, `weekday()` with Monday = 0).
Fallible constructors return `Except FieldError _`.
-/

/-- Model of `datetime.date`: a year/month/day triple.  Python's
`datetime` restricts years to 1..9999; we track validity separately via
`validDate`. -/
structure PDate where
  year : Nat
  month : Nat
  day : Nat
deriving DecidableEq, Repr

/-- Gregorian leap-year rule, as implemented by `datetime` (and assumed
by `date.replace` raising on Feb-29 of a non-leap year). -/
def isLeap (y : Nat) : Bool :=
  (y % 4 == 0 && y % 100 != 0) || y % 400 == 0

/-- Number of days in month `m` of year `y` (0 for an invalid month). -/
def daysInMonth (y m : Nat) : Nat :=
  match m with
  | 1 => 31
  | 2 => if isLeap y then 29 else 28
  | 3 => 31
  | 4 => 30
  | 5 => 31
  | 6 => 30
  | 7 => 31
  | 8 => 31
  | 9 => 30
  | 10 => 31
  | 11 => 30
  | 12 => 31
  | _ => 0

/-- Days of year `y` that precede the first day of month `m`. -/
def daysBeforeMonth (y m : Nat) : Nat :=
  let l : Nat := if isLeap y then 1 else 0
  match m with
  | 1 => 0
  | 2 => 31
  | 3 => 59 + l
  | 4 => 90 + l
  | 5 => 120 + l
  | 6 => 151 + l
  | 7 => 181 + l
  | 8 => 212 + l
  | 9 => 243 + l
  | 10 => 273 + l
  | 11 => 304 + l
  | 12 => 334 + l
  | _ => 0

/-- Holds when `d` is a real proleptic-Gregorian calendar date (year at least 1,
the range `datetime.date` itself validates apart from its 9999 cap). -/
def validDate (d : PDate) : Bool :=
  1 ≤ d.year && 1 ≤ d.month && d.month ≤ 12 && 1 ≤ d.day && d.day ≤ daysInMonth d.year d.month

/-- Leap years among 1..y-1, the correction term of the ordinal-day
formula. -/
def leapsBefore (y : Nat) : Nat :=
  (y - 1) / 4 - (y - 1) / 100 + (y - 1) / 400

/-- Ordinal day number of a date: `datetime.date.toordinal`, with
0001-01-01 mapped to 1.  Differences of ordinals are the day counts the
scheduler computes with `timedelta`. -/
def rataDie (d : PDate) : Nat :=
  365 * (d.year - 1) + leapsBefore d.year + daysBeforeMonth d.year d.month + d.day

/-- Models `date.weekday()`: 0 = Monday .. 6 = Sunday (0001-01-01 is a
Monday). -/
def pyWeekday (d : PDate) : Nat :=
  (rataDie d + 6) % 7

/-- The day after `d` (month/year rollover), the single step out of
which `timedelta` addition is built. -/
def nextDay (d : PDate) : PDate :=
  if d.day < daysInMonth d.year d.month then ⟨d.year, d.month, d.day + 1⟩
  else if d.month < 12 then ⟨d.year, d.month + 1, 1⟩
  else ⟨d.year + 1, 1, 1⟩

/-- Models `d + timedelta(days=n)` for a nonnegative `n`. -/
def addDays (d : PDate) : Nat → PDate
  | 0 => d
  | n + 1 => addDays (nextDay d) n

/-- Python `date` comparison (`<`), which compares the
(year, month, day) triples lexicographically. -/
def pdLt (a b : PDate) : Bool :=
  if a.year < b.year then true
  else if a.year = b.year then
    if a.month < b.month then true
    else if a.month = b.month then a.day < b.day
    else false
  else false

/-- Models `d.replace(year=y)`: keeps month and day, fails (returns `none`,
modelling the raised `ValueError`) when the resulting triple is not a
real date. -/
def replaceYear (d : PDate) (y : Nat) : Option PDate :=
  if validDate ⟨y, d.month, d.day⟩ then some ⟨y, d.month, d.day⟩ else none

-- ### Basic calendar lemmas

theorem daysInMonth_pos (y m : Nat) (h1 : 1 ≤ m) (h12 : m ≤ 12) :
    1 ≤ daysInMonth y m := by
  interval_cases m <;> simp [daysInMonth] <;> split <;> omega

theorem daysBeforeMonth_succ (y m : Nat) (h1 : 1 ≤ m) (h12 : m ≤ 11) :
    daysBeforeMonth y (m + 1) = daysBeforeMonth y m + daysInMonth y m := by
  interval_cases m <;>
    simp only [daysBeforeMonth, daysInMonth] <;> split <;> omega

theorem leapsBefore_succ (y : Nat) (hy : 1 ≤ y) :
    leapsBefore (y + 1) = leapsBefore y + (if isLeap y then 1 else 0) := by
  obtain ⟨z, rfl⟩ : ∃ z, y = z + 1 := ⟨y - 1, by omega⟩
  have h4 : (z + 1) / 4 = z / 4 + if 4 ∣ (z + 1) then 1 else 0 := Nat.succ_div z 4
  have h100 : (z + 1) / 100 = z / 100 + if 100 ∣ (z + 1) then 1 else 0 := Nat.succ_div z 100
  have h400 : (z + 1) / 400 = z / 400 + if 400 ∣ (z + 1) then 1 else 0 := Nat.succ_div z 400
  have hle1 : z / 100 ≤ z / 4 := Nat.div_le_div_left (by norm_num) (by norm_num)
  have hle2 : z / 400 ≤ z / 100 := Nat.div_le_div_left (by norm_num) (by norm_num)
  have hm4 : (4 ∣ (z + 1)) ↔ (z + 1) % 4 = 0 := Nat.dvd_iff_mod_eq_zero
  have hm100 : (100 ∣ (z + 1)) ↔ (z + 1) % 100 = 0 := Nat.dvd_iff_mod_eq_zero
  have hm400 : (400 ∣ (z + 1)) ↔ (z + 1) % 400 = 0 := Nat.dvd_iff_mod_eq_zero
  have himp1 : (z + 1) % 400 = 0 → (z + 1) % 100 = 0 := fun h =>
    hm100.mp (dvd_trans (by norm_num) (hm400.mpr h))
  have himp2 : (z + 1) % 100 = 0 → (z + 1) % 4 = 0 := fun h =>
    hm4.mp (dvd_trans (by norm_num) (hm100.mpr h))
  simp only [leapsBefore, Nat.add_sub_cancel]
  by_cases e400 : (z + 1) % 400 = 0
  · have e100 := himp1 e400
    have e4 := himp2 e100
    have a4 : (z + 1) / 4 = z / 4 + 1 := by rw [h4, if_pos (hm4.mpr e4)]
    have a100 : (z + 1) / 100 = z / 100 + 1 := by rw [h100, if_pos (hm100.mpr e100)]
    have a400 : (z + 1) / 400 = z / 400 + 1 := by rw [h400, if_pos (hm400.mpr e400)]
    have hL : (if isLeap (z + 1) then 1 else 0) = 1 := by simp [isLeap, e400]
    rw [a4, a100, a400, hL]
    omega
  · by_cases e100 : (z + 1) % 100 = 0
    · have e4 := himp2 e100
      have a4 : (z + 1) / 4 = z / 4 + 1 := by rw [h4, if_pos (hm4.mpr e4)]
      have a100 : (z + 1) / 100 = z / 100 + 1 := by rw [h100, if_pos (hm100.mpr e100)]
      have a400 : (z + 1) / 400 = z / 400 := by
        rw [h400, if_neg (fun hc => e400 (hm400.mp hc))]
        omega
      have hL : (if isLeap (z + 1) then 1 else 0) = 0 := by simp [isLeap, e100, e400]
      rw [a4, a100, a400, hL]
      omega
    · by_cases e4 : (z + 1) % 4 = 0
      · have a4 : (z + 1) / 4 = z / 4 + 1 := by rw [h4, if_pos (hm4.mpr e4)]
        have a100 : (z + 1) / 100 = z / 100 := by
          rw [h100, if_neg (fun hc => e100 (hm100.mp hc))]
          omega
        have a400 : (z + 1) / 400 = z / 400 := by
          rw [h400, if_neg (fun hc => e400 (hm400.mp hc))]
          omega
        have hL : (if isLeap (z + 1) then 1 else 0) = 1 := by simp [isLeap, e4, e100]
        rw [a4, a100, a400, hL]
        omega
      · have a4 : (z + 1) / 4 = z / 4 := by
          rw [h4, if_neg (fun hc => e4 (hm4.mp hc))]
          omega
        have a100 : (z + 1) / 100 = z / 100 := by
          rw [h100, if_neg (fun hc => e100 (hm100.mp hc))]
          omega
        have a400 : (z + 1) / 400 = z / 400 := by
          rw [h400, if_neg (fun hc => e400 (hm400.mp hc))]
          omega
        have hL : (if isLeap (z + 1) then 1 else 0) = 0 := by simp [isLeap, e4, e400]
        rw [a4, a100, a400, hL]
        omega

theorem daysBeforeMonth_12 (y : Nat) :
    daysBeforeMonth y 12 + 31 = 365 + (if isLeap y then 1 else 0) := by
  simp only [daysBeforeMonth]
  split <;> omega

theorem rataDie_nextDay (d : PDate) (hd : validDate d = true) :
    rataDie (nextDay d) = rataDie d + 1 := by
  obtain ⟨y, m, dd⟩ := d
  simp only [validDate, Bool.and_eq_true, decide_eq_true_eq] at hd
  obtain ⟨⟨⟨⟨hy, hm1⟩, hm12⟩, hd1⟩, hdm⟩ := hd
  unfold nextDay
  by_cases h1 : dd < daysInMonth y m
  · simp only [h1, if_pos]
    simp only [rataDie]
    omega
  · simp only [h1, if_neg, not_false_iff]
    by_cases h2 : m < 12
    · simp only [h2, if_pos]
      simp only [rataDie]
      rw [daysBeforeMonth_succ y m hm1 (by omega)]
      omega
    · simp only [h2, if_neg, not_false_iff]
      have hm : m = 12 := by omega
      subst hm
      have hday : dd = 31 := by
        simp only [daysInMonth] at hdm h1
        omega
      subst hday
      simp only [rataDie]
      rw [leapsBefore_succ y hy]
      have h12 := daysBeforeMonth_12 y
      simp only [daysBeforeMonth, Nat.add_sub_cancel]
      omega

theorem validDate_nextDay (d : PDate) (hd : validDate d = true) :
    validDate (nextDay d) = true := by
  obtain ⟨y, m, dd⟩ := d
  simp only [validDate, Bool.and_eq_true, decide_eq_true_eq] at hd
  obtain ⟨⟨⟨⟨hy, hm1⟩, hm12⟩, hd1⟩, hdm⟩ := hd
  unfold nextDay
  by_cases h1 : dd < daysInMonth y m
  · simp only [h1, if_pos]
    simp only [validDate, Bool.and_eq_true, decide_eq_true_eq]
    omega
  · simp only [h1, if_neg, not_false_iff]
    by_cases h2 : m < 12
    · simp only [h2, if_pos]
      simp only [validDate, Bool.and_eq_true, decide_eq_true_eq]
      refine ⟨⟨⟨⟨hy, by omega⟩, by omega⟩, by omega⟩, ?_⟩
      exact daysInMonth_pos y (m + 1) (by omega) (by omega)
    · simp only [h2, if_neg, not_false_iff]
      simp only [validDate, Bool.and_eq_true, decide_eq_true_eq]
      refine ⟨⟨⟨⟨by omega, by omega⟩, by omega⟩, by omega⟩, ?_⟩
      simp [daysInMonth]

theorem rataDie_addDays (d : PDate) (n : Nat) (hd : validDate d = true) :
    rataDie (addDays d n) = rataDie d + n := by
  induction n generalizing d with
  | zero => simp [addDays]
  | succ k ih =>
    simp only [addDays]
    rw [ih (nextDay d) (validDate_nextDay d hd), rataDie_nextDay d hd]
    omega

theorem pyWeekday_addDays (d : PDate) (n : Nat) (hd : validDate d = true) :
    pyWeekday (addDays d n) = (pyWeekday d + n) % 7 := by
  simp only [pyWeekday, rataDie_addDays d n hd]
  omega

-- ### Python strings, `str.isdigit`, and the `%d-%m-%Y` parser

/-- The character for digit `n` (`n ≤ 9`). -/
def dChar (n : Nat) : Char := Char.ofNat (48 + n)

/-- ASCII decimal digit test (the character class `\d` of the
`_strptime` regex, and the model of `str.isdigit` for the decimal
digits the spec is about). -/
def isDigitCh (c : Char) : Bool := '0' ≤ c && c ≤ '9'

/-- Numeric value of a digit character. -/
def digitVal (c : Char) : Nat := c.toNat - 48

/-- Models `str.isdigit()`: false on the empty string, else true when every
character is a digit. -/
def pyIsdigit (s : List Char) : Bool := !s.isEmpty && s.all isDigitCh

/-- Zero-padded two-digit rendering (`%02d`), for day and month. -/
def pad2 (n : Nat) : List Char := [dChar (n / 10 % 10), dChar (n % 10)]

/-- Zero-padded four-digit rendering (`%04d`), the year part of
`date.isoformat()`. -/
def pad4 (n : Nat) : List Char :=
  [dChar (n / 1000 % 10), dChar (n / 100 % 10), dChar (n / 10 % 10), dChar (n % 10)]

/-- First success of `f` along a list: the backtracking order of a
regex alternation, and the semantics of trying candidates in order. -/
def firstSome {α β : Type} (f : α → Option β) : List α → Option β
  | [] => none
  | a :: as =>
    match f a with
    | some b => some b
    | none => firstSome f as

/-- Matches the literal `-` of the pattern, returning the remainder. -/
def afterDash : List Char → Option (List Char)
  | c :: t => if c = '-' then some t else none
  | [] => none

/-- The ways the `%d` group `3[01]|[12]\d|0[1-9]|[1-9]` can match a
prefix of `s`, as (value, remainder) pairs in alternation order. -/
def dayCands : List Char → List (Nat × List Char)
  | [] => []
  | [c] => if isDigitCh c && c ≠ '0' then [(digitVal c, [])] else []
  | c1 :: c2 :: rest =>
    (if c1 = '3' && (c2 = '0' || c2 = '1') then [(30 + digitVal c2, rest)] else [])
    ++ (if (c1 = '1' || c1 = '2') && isDigitCh c2 then [(10 * digitVal c1 + digitVal c2, rest)] else [])
    ++ (if c1 = '0' && (isDigitCh c2 && c2 ≠ '0') then [(digitVal c2, rest)] else [])
    ++ (if isDigitCh c1 && c1 ≠ '0' then [(digitVal c1, c2 :: rest)] else [])

/-- The ways the `%m` group `1[0-2]|0[1-9]|[1-9]` can match a prefix of
`s`. -/
def monthCands : List Char → List (Nat × List Char)
  | [] => []
  | [c] => if isDigitCh c && c ≠ '0' then [(digitVal c, [])] else []
  | c1 :: c2 :: rest =>
    (if c1 = '1' && (c2 = '0' || c2 = '1' || c2 = '2') then [(10 + digitVal c2, rest)] else [])
    ++ (if c1 = '0' && (isDigitCh c2 && c2 ≠ '0') then [(digitVal c2, rest)] else [])
    ++ (if isDigitCh c1 && c1 ≠ '0' then [(digitVal c1, c2 :: rest)] else [])

/-- The `%Y` group `\d\d\d\d`: exactly four digits. -/
def year4 : List Char → Option (Nat × List Char)
  | a :: b :: c :: d :: rest =>
    if isDigitCh a && isDigitCh b && isDigitCh c && isDigitCh d then
      some (1000 * digitVal a + 100 * digitVal b + 10 * digitVal c + digitVal d, rest)
    else none
  | _ => none

/-- Performs the `re.match` of the compiled `%d-%m-%Y` pattern against `s`: the
first (in backtracking order) way the pattern matches a prefix,
returning the captured numbers and the unconsumed remainder. -/
def matchDMY (s : List Char) : Option ((Nat × Nat × Nat) × List Char) :=
  firstSome (fun dc =>
    match afterDash dc.2 with
    | none => none
    | some s2 =>
      firstSome (fun mc =>
        match afterDash mc.2 with
        | none => none
        | some s4 =>
          match year4 s4 with
          | some (y, rest) => some ((dc.1, mc.1, y), rest)
          | none => none) (monthCands s2)) (dayCands s)

/-- Models `datetime.strptime` at format `%d-%m-%Y`, then `.date()`: the regex must match
with nothing left over ("unconverted data remains" otherwise) and the
captured numbers must form a real calendar date (the `datetime`
constructor validates day against month and year). -/
def strptimeDMY (s : List Char) : Option PDate :=
  match matchDMY s with
  | some ((d, m, y), []) => if validDate ⟨y, m, d⟩ then some ⟨y, m, d⟩ else none
  | _ => none

-- ### Field constructors and their errors

/-- The `ValueError`s the field constructors raise, distinguished by
kind as the spec's `ValidationError`s. -/
inductive FieldError where
  | badName
  | badPhone
  | badFormat
  | nonexistentDate (lit : List Char)
  | phoneNotFound (lit : List Char)
  | duplicatePhone
deriving DecidableEq, Repr

/-- Models `Name.__init__`: rejects values longer than `MAX_NAME_LENGTH = 21`,
stores the value otherwise. -/
def nameInit (value : List Char) : Except FieldError (List Char) :=
  if value.length > 21 then .error .badName else .ok value

/-- Models `Phone.__init__`: rejects the value unless `value.isdigit()` holds
and the length is `PHONE_LENGTH = 10`. -/
def phoneInit (value : List Char) : Except FieldError (List Char) :=
  if ¬ pyIsdigit value = true ∨ value.length ≠ 10 then .error .badPhone else .ok value

/-- Models `Birthday.__init__`: parse with `strptime`; on failure raise the
bad-format error when the value has no `-` at all, else the
nonexistent-date error naming the value. -/
def birthdayInit (value : List Char) : Except FieldError PDate :=
  match strptimeDMY value with
  | some d => .ok d
  | none =>
    if '-' ∈ value then .error (.nonexistentDate value) else .error .badFormat

/-- Models `Field.__str__` on a `Birthday`: `str(self.value)` where the stored
value is a `datetime.date`, i.e. Python's `date.isoformat()` rendering
`YYYY-MM-DD`. -/
def birthdayToString (d : PDate) : List Char :=
  pad4 d.year ++ '-' :: (pad2 d.month ++ '-' :: pad2 d.day)

/-- Models `date.strftime` at format `%d-%m-%Y`: zero-padded day and month, year as a
plain decimal number. -/
def fmtDMY (d : PDate) : List Char :=
  pad2 d.day ++ '-' :: (pad2 d.month ++ '-' :: Nat.toDigits 10 d.year)

-- ### Record phone operations

/-- A contact record: one name, an ordered list of phone values, an
optional birthday date. -/
structure Record where
  name : List Char
  phones : List (List Char)
  birthday : Option PDate
deriving DecidableEq, Repr

/-- Models `Record.find_phone`: the first stored phone whose value equals
`phone`, else `None`. -/
def find_phone (phones : List (List Char)) (phone : List Char) : Option (List Char) :=
  phones.find? (fun p => p == phone)

/-- Models `Record.add_phone`: duplicate check first, then `Phone` validation,
then append.  An error carries the phone list as it stands when the
exception is raised. -/
def add_phone (phones : List (List Char)) (phone : List Char) :
    Except (FieldError × List (List Char)) (List (List Char)) :=
  if (find_phone phones phone).isSome then .error (.duplicatePhone, phones)
  else
    match phoneInit phone with
    | .error e => .error (e, phones)
    | .ok p => .ok (phones ++ [p])

/-- Models `Record.remove_phone`: not-found check, then `list.remove` of the
found object (the first equal value). -/
def remove_phone (phones : List (List Char)) (phone : List Char) :
    Except (FieldError × List (List Char)) (List (List Char)) :=
  match find_phone phones phone with
  | none => .error (.phoneNotFound phone, phones)
  | some p => .ok (phones.erase p)

/-- Models `Record.edit_phone`: not-found check on `old`, validation of `new`
(`Phone(new_phone)`), then `remove_phone(old)` followed by
`add_phone(new)`.  As in Python, an error raised part-way leaves the
list in whatever state the earlier steps produced: the error value
carries that list. -/
def edit_phone (phones : List (List Char)) (oldPhone newPhone : List Char) :
    Except (FieldError × List (List Char)) (List (List Char)) :=
  if (find_phone phones oldPhone).isNone then .error (.phoneNotFound oldPhone, phones)
  else
    match phoneInit newPhone with
    | .error e => .error (e, phones)
    | .ok _ =>
      match remove_phone phones oldPhone with
      | .error es => .error es
      | .ok phones1 =>
        match add_phone phones1 newPhone with
        | .error es => .error es
        | .ok phones2 => .ok phones2

-- ### The birthday scheduler

/-- One output row of the scheduler: `{"name": ..., "date": ...}`. -/
structure Entry where
  name : List Char
  date : List Char
deriving DecidableEq, Repr

/-- Lines 251-263 of the source: project the stored birthday onto
today's year with `replace(year=today.year)`, falling back to Feb-28 of
that year when `replace` raises; if the result is before today, repeat
with `today.year + 1` starting from that (possibly substituted)
date. -/
def projectBirthday (today b : PDate) : PDate :=
  let bty : PDate :=
    match replaceYear b today.year with
    | some d => d
    | none => ⟨today.year, 2, 28⟩
  if pdLt bty today then
    match replaceYear bty (today.year + 1) with
    | some d => d
    | none => ⟨today.year + 1, 2, 28⟩
  else bty

/-- Models `days_diff = (birthday_this_year - today).days`, in days as a
signed number. -/
def daysDiff (today b : PDate) : Int :=
  (rataDie (projectBirthday today b) : Int) - (rataDie today : Int)

/-- Lines 268-273 of the source: the congratulation date is the
projected date, shifted by `7 - weekday` days when its weekday is in
`WEEKEND_DAYS = (5, 6)`. -/
def congratulationDate (p : PDate) : PDate :=
  if pyWeekday p = 5 || pyWeekday p = 6 then addDays p (7 - pyWeekday p) else p

/-- The loop body of `get_upcoming_birthdays` for one record: `None`
when the record is skipped (`continue` or the window test failing),
else the emitted row. -/
def processRecord (today : PDate) (r : Record) : Option Entry :=
  match r.birthday with
  | none => none
  | some b =>
    let bty := projectBirthday today b
    if 0 ≤ daysDiff today b ∧ daysDiff today b ≤ 7 then
      some ⟨r.name, fmtDMY (congratulationDate bty)⟩
    else none

/-- Models `get_upcoming_birthdays(book)` over the records of the book in
iteration order, with `today` made an explicit argument
(`date.today()` in the source). -/
def get_upcoming_birthdays (book : List Record) (today : PDate) : List Entry :=
  book.filterMap (processRecord today)

/-- The same loop written with the visited record handed back out of
each iteration: the body reads `record.birthday` and `record.name` and
assigns to neither, so each iteration returns the record rebuilt from
the fields it read. -/
def get_upcoming_birthdaysSt (book : List Record) (today : PDate) :
    List Entry × List Record :=
  match book with
  | [] => ([], [])
  | r :: rest =>
    let visited : Record := ⟨r.name, r.phones, r.birthday⟩
    let out := get_upcoming_birthdaysSt rest today
    (match processRecord today r with
     | some e => e :: out.1
     | none => out.1, visited :: out.2)

-- ### Spec-side definitions, for comparison with the code

/-- The projection step exactly as claim C1 words it: both the first
projection and the re-projection place the stored birthday's own
month/day onto the target year, substituting Feb-28 only when the
birthday is Feb-29 and that target year is not a leap year. -/
def projectBirthdaySpecC1 (today b : PDate) : PDate :=
  let p1 : PDate :=
    if b.month = 2 ∧ b.day = 29 ∧ isLeap today.year = false then ⟨today.year, 2, 28⟩
    else ⟨today.year, b.month, b.day⟩
  if pdLt p1 today then
    if b.month = 2 ∧ b.day = 29 ∧ isLeap (today.year + 1) = false then ⟨today.year + 1, 2, 28⟩
    else ⟨today.year + 1, b.month, b.day⟩
  else p1

/-- The projection step as the code actually behaves (the amended
claim): the re-projection starts from the first, possibly already
substituted, date, so its Feb-29 test sees Feb-28 when the current year
was not a leap year. -/
def projectBirthdayAmendedC1 (today b : PDate) : PDate :=
  let p1 : PDate :=
    if b.month = 2 ∧ b.day = 29 ∧ isLeap today.year = false then ⟨today.year, 2, 28⟩
    else ⟨today.year, b.month, b.day⟩
  if pdLt p1 today then
    if p1.month = 2 ∧ p1.day = 29 ∧ isLeap (today.year + 1) = false then ⟨today.year + 1, 2, 28⟩
    else ⟨today.year + 1, p1.month, p1.day⟩
  else p1

/-- Claim C5's inclusion condition on a record: a birthday is set and
the day difference of its projection lies in [0, 7]. -/
def includedByClaim (today : PDate) (r : Record) : Bool :=
  match r.birthday with
  | none => false
  | some b => decide (0 ≤ daysDiff today b ∧ daysDiff today b ≤ 7)

/-- The row emitted for an included record. -/
def emittedEntry (today : PDate) (r : Record) : Entry :=
  match r.birthday with
  | none => ⟨r.name, []⟩
  | some b => ⟨r.name, fmtDMY (congratulationDate (projectBirthday today b))⟩

-- ### Lemmas about the `%d-%m-%Y` matcher

theorem firstSome_eq_none {α β : Type} (f : α → Option β) (l : List α)
    (h : ∀ a ∈ l, f a = none) : firstSome f l = none := by
  induction l with
  | nil => rfl
  | cons a as ih =>
    simp only [firstSome]
    rw [h a (List.mem_cons_self a as)]
    exact ih (fun x hx => h x (List.mem_cons_of_mem a hx))

theorem dayCands_rest (s : List Char) (p : Nat × List Char) (hp : p ∈ dayCands s) :
    p.2 = s.drop 1 ∨ p.2 = s.drop 2 := by
  match s with
  | [] => simp [dayCands] at hp
  | [c] =>
    simp only [dayCands] at hp
    split at hp
    · simp only [List.mem_singleton] at hp
      subst hp
      left
      rfl
    · simp at hp
  | c1 :: c2 :: rest =>
    simp only [dayCands, List.mem_append] at hp
    have hdrop1 : (c1 :: c2 :: rest).drop 1 = c2 :: rest := rfl
    have hdrop2 : (c1 :: c2 :: rest).drop 2 = rest := rfl
    rcases hp with ((hp | hp) | hp) | hp <;>
      [skip; skip; skip; skip] <;>
      (split at hp <;> simp only [List.mem_singleton, List.not_mem_nil] at hp) <;>
      (try subst hp) <;> simp [hdrop1, hdrop2]

theorem monthCands_rest (s : List Char) (p : Nat × List Char) (hp : p ∈ monthCands s) :
    p.2 = s.drop 1 ∨ p.2 = s.drop 2 := by
  match s with
  | [] => simp [monthCands] at hp
  | [c] =>
    simp only [monthCands] at hp
    split at hp
    · simp only [List.mem_singleton] at hp
      subst hp
      left
      rfl
    · simp at hp
  | c1 :: c2 :: rest =>
    simp only [monthCands, List.mem_append] at hp
    have hdrop1 : (c1 :: c2 :: rest).drop 1 = c2 :: rest := rfl
    have hdrop2 : (c1 :: c2 :: rest).drop 2 = rest := rfl
    rcases hp with (hp | hp) | hp <;>
      (split at hp <;> simp only [List.mem_singleton, List.not_mem_nil] at hp) <;>
      (try subst hp) <;> simp [hdrop1, hdrop2]

theorem afterDash_none_of_not_mem (u : List Char) (h : '-' ∉ u) : afterDash u = none := by
  match u with
  | [] => rfl
  | c :: t =>
    simp only [afterDash]
    rw [if_neg]
    intro hc
    exact h (hc ▸ List.mem_cons_self c t)

theorem matchDMY_eq_none (s : List Char)
    (h1 : afterDash (s.drop 1) = none) (h2 : afterDash (s.drop 2) = none) :
    matchDMY s = none := by
  unfold matchDMY
  apply firstSome_eq_none
  intro dc hdc
  rcases dayCands_rest s dc hdc with h | h
  · rw [h, h1]
  · rw [h, h2]

theorem strptimeDMY_none_of_no_dash (s : List Char) (h : '-' ∉ s) :
    strptimeDMY s = none := by
  have hsub1 : '-' ∉ s.drop 1 := fun hm => h (List.drop_subset 1 s hm)
  have hsub2 : '-' ∉ s.drop 2 := fun hm => h (List.drop_subset 2 s hm)
  have hm := matchDMY_eq_none s (afterDash_none_of_not_mem _ hsub1)
    (afterDash_none_of_not_mem _ hsub2)
  unfold strptimeDMY
  rw [hm]

-- ### Lemmas about projecting a date onto another year

theorem validDate_year_swap (y0 m d y : Nat) (hv : validDate ⟨y0, m, d⟩ = true)
    (hy : 1 ≤ y) :
    validDate ⟨y, m, d⟩ = true ↔ ¬(m = 2 ∧ d = 29 ∧ isLeap y = false) := by
  simp only [validDate, Bool.and_eq_true, decide_eq_true_eq] at hv
  obtain ⟨⟨⟨⟨hy0, hm1⟩, hm12⟩, hd1⟩, hdm⟩ := hv
  constructor
  · intro h hc
    obtain ⟨h2, h29, hL⟩ := hc
    subst h2 h29
    simp only [validDate, Bool.and_eq_true, decide_eq_true_eq, daysInMonth, hL,
      Bool.false_eq_true, if_false] at h
    omega
  · intro hc
    simp only [validDate, Bool.and_eq_true, decide_eq_true_eq]
    refine ⟨⟨⟨⟨hy, hm1⟩, hm12⟩, hd1⟩, ?_⟩
    by_cases hm2 : m = 2
    · subst hm2
      have hd29 : d ≤ 29 := by
        simp only [daysInMonth] at hdm
        split at hdm <;> omega
      cases hL : isLeap y with
      | true => simp only [daysInMonth, hL, if_true]; omega
      | false =>
        have hne : d ≠ 29 := fun h29 => hc ⟨rfl, h29, hL⟩
        simp only [daysInMonth, hL, Bool.false_eq_true, if_false]
        omega
    · have heq : daysInMonth y m = daysInMonth y0 m := by
        interval_cases m <;> first | rfl | exact absurd rfl hm2
      rw [heq]
      exact hdm

theorem feb28_valid (y : Nat) (hy : 1 ≤ y) : validDate ⟨y, 2, 28⟩ = true := by
  simp only [validDate, Bool.and_eq_true, decide_eq_true_eq, daysInMonth]
  refine ⟨⟨⟨⟨hy, by omega⟩, by omega⟩, by omega⟩, ?_⟩
  split <;> omega

-- ### Claim theorems

/-- C1 (counterexample): for the birthday 29-02-2000 seen on
01-03-2027 the code first substitutes 28-02-2027, finds it behind
today, and re-projects that substituted date, giving 28-02-2028 — while
the claim's projection rule (re-project the birthday's own month/day,
substituting only when the next year is not leap) gives 29-02-2028,
2028 being a leap year.  The claim as stated is therefore false at this
input. -/
theorem projectBirthday_leap_next_year_cex :
    projectBirthday ⟨2027, 3, 1⟩ ⟨2000, 2, 29⟩ = ⟨2028, 2, 28⟩ ∧
    projectBirthdaySpecC1 ⟨2027, 3, 1⟩ ⟨2000, 2, 29⟩ = ⟨2028, 2, 29⟩ ∧
    isLeap 2028 = true ∧ validDate ⟨2000, 2, 29⟩ = true := by
  refine ⟨by decide, by decide, by decide, by decide⟩

/-- C1 (amended): the projection the scheduler computes equals the
amended rule: project the birthday's month/day onto today's year,
substituting Feb-28 when the birthday is Feb-29 and the current year is
not leap; if the result is strictly before today, re-project that
(possibly substituted) date onto today's year + 1, substituting Feb-28
only when that date itself is Feb-29 and the next year is not leap.  In
particular a Feb-29 birthday that was already substituted to Feb-28
stays Feb-28 in the next year even when the next year is a leap
year. -/
theorem projectBirthday_eq_amendedC1 (today b : PDate) (hb : validDate b = true)
    (hy : 1 ≤ today.year) :
    projectBirthday today b = projectBirthdayAmendedC1 today b := by
  obtain ⟨ty, tm, td⟩ := today
  obtain ⟨yb, mb, db⟩ := b
  simp only at hy
  have hswap1 := validDate_year_swap yb mb db ty hb hy
  simp only [projectBirthday, projectBirthdayAmendedC1, replaceYear]
  by_cases hv1 : validDate ⟨ty, mb, db⟩ = true
  · have hnot1 : ¬(mb = 2 ∧ db = 29 ∧ isLeap ty = false) := hswap1.mp hv1
    by_cases hlt : pdLt ⟨ty, mb, db⟩ ⟨ty, tm, td⟩ = true
    · have hswap2 := validDate_year_swap ty mb db (ty + 1) hv1 (by omega)
      by_cases hv2 : validDate ⟨ty + 1, mb, db⟩ = true
      · have hnot2 : ¬(mb = 2 ∧ db = 29 ∧ isLeap (ty + 1) = false) := hswap2.mp hv2
        simp [hv1, hnot1, hlt, hv2, hnot2]
      · obtain ⟨hm2, hd29, hL2⟩ := not_not.mp (mt hswap2.mpr hv2)
        subst hm2
        subst hd29
        have hLty : isLeap ty = true := by
          rcases Bool.eq_false_or_eq_true (isLeap ty) with h | h
          · exact h
          · exact absurd ⟨rfl, rfl, h⟩ hnot1
        simp [hv1, hnot1, hlt, hv2, hL2, hLty]
    · simp [hv1, hnot1, hlt]
  · obtain ⟨hm2, hd29, hL1⟩ := not_not.mp (mt hswap1.mpr hv1)
    subst hm2
    subst hd29
    by_cases hlt : pdLt ⟨ty, 2, 28⟩ ⟨ty, tm, td⟩ = true
    · have hv28 : validDate ⟨ty + 1, 2, 28⟩ = true := feb28_valid (ty + 1) (by omega)
      simp [hv1, hL1, hlt, hv28]
    · simp [hv1, hL1, hlt]

/-- C1 (witness): the amended equivalence applied at the
counterexample's input. -/
theorem projectBirthday_eq_amendedC1_witness :
    projectBirthday ⟨2027, 3, 1⟩ ⟨2000, 2, 29⟩ =
      projectBirthdayAmendedC1 ⟨2027, 3, 1⟩ ⟨2000, 2, 29⟩ :=
  projectBirthday_eq_amendedC1 ⟨2027, 3, 1⟩ ⟨2000, 2, 29⟩ (by decide) (by decide)

theorem dChar_mod_ne_dash (n : Nat) : dChar (n % 10) ≠ '-' := by
  have h : n % 10 < 10 := Nat.mod_lt n (by norm_num)
  set k := n % 10 with hk
  interval_cases k <;> decide

theorem matchDMY_iso (d : PDate) : matchDMY (birthdayToString d) = none := by
  apply matchDMY_eq_none
  · show afterDash (dChar (d.year / 100 % 10) :: dChar (d.year / 10 % 10) ::
      dChar (d.year % 10) :: '-' :: (pad2 d.month ++ '-' :: pad2 d.day)) = none
    simp only [afterDash]
    rw [if_neg (dChar_mod_ne_dash (d.year / 100))]
  · show afterDash (dChar (d.year / 10 % 10) :: dChar (d.year % 10) ::
      '-' :: (pad2 d.month ++ '-' :: pad2 d.day)) = none
    simp only [afterDash]
    rw [if_neg (dChar_mod_ne_dash (d.year / 10))]

/-- C2 (counterexample): the date parsed from `22-12-1990` renders via
`Field.__str__` as the ISO string `1990-12-22`, not in `DD-MM-YYYY`
form, and parsing that rendering back fails, so the round-trip of the
claim does not hold. -/
theorem birthday_roundtrip_cex :
    birthdayInit ['2', '2', '-', '1', '2', '-', '1', '9', '9', '0'] = .ok ⟨1990, 12, 22⟩ ∧
    birthdayToString ⟨1990, 12, 22⟩ = ['1', '9', '9', '0', '-', '1', '2', '-', '2', '2'] ∧
    birthdayToString ⟨1990, 12, 22⟩ ≠ ['2', '2', '-', '1', '2', '-', '1', '9', '9', '0'] ∧
    birthdayInit ['1', '9', '9', '0', '-', '1', '2', '-', '2', '2'] =
      .error (.nonexistentDate ['1', '9', '9', '0', '-', '1', '2', '-', '2', '2']) := by
  refine ⟨rfl, rfl, by decide, rfl⟩

/-- C2 (amended): `toString()` of a `Birthday` renders the stored date
in ISO `YYYY-MM-DD` form, and re-parsing that rendering always fails
with the nonexistent-date error: the `DD-MM-YYYY` round-trip of the
claim never holds through `toString()`. -/
theorem birthday_tostring_parse_fails (d : PDate) :
    birthdayInit (birthdayToString d) =
      .error (.nonexistentDate (birthdayToString d)) := by
  have hs : strptimeDMY (birthdayToString d) = none := by
    unfold strptimeDMY
    rw [matchDMY_iso]
  unfold birthdayInit
  rw [hs]
  rw [if_pos]
  show '-' ∈ birthdayToString d
  simp [birthdayToString, pad4]

/-- C3 (code evaluated at the failing input): with phones
`1111111111` and `2222222222` stored, `edit_phone("1111111111",
"2222222222")` raises the duplicate error but has already removed the
old phone: the record is left with `["2222222222"]`, not unchanged as
the claim requires. -/
theorem edit_phone_duplicate_drops_old :
    edit_phone [['1', '1', '1', '1', '1', '1', '1', '1', '1', '1'],
        ['2', '2', '2', '2', '2', '2', '2', '2', '2', '2']]
      ['1', '1', '1', '1', '1', '1', '1', '1', '1', '1']
      ['2', '2', '2', '2', '2', '2', '2', '2', '2', '2'] =
      .error (.duplicatePhone, [['2', '2', '2', '2', '2', '2', '2', '2', '2', '2']]) ∧
    [['2', '2', '2', '2', '2', '2', '2', '2', '2', '2']] ≠
      [['1', '1', '1', '1', '1', '1', '1', '1', '1', '1'],
        ['2', '2', '2', '2', '2', '2', '2', '2', '2', '2']] := by
  refine ⟨rfl, by decide⟩

/-- C4: for a real calendar date, the congratulation date is the
projected date shifted to the following Monday when the weekday is
Saturday (5, shift +2) or Sunday (6, shift +1), and is the projected
date itself on a weekday. -/
theorem congratulation_weekend_shift (p : PDate) (hp : validDate p = true) :
    (pyWeekday p = 5 →
      congratulationDate p = addDays p 2 ∧ pyWeekday (congratulationDate p) = 0) ∧
    (pyWeekday p = 6 →
      congratulationDate p = addDays p 1 ∧ pyWeekday (congratulationDate p) = 0) ∧
    (pyWeekday p < 5 → congratulationDate p = p) := by
  refine ⟨?_, ?_, ?_⟩
  · intro h5
    have hcd : congratulationDate p = addDays p 2 := by
      unfold congratulationDate
      rw [h5]
      simp
    refine ⟨hcd, ?_⟩
    rw [hcd, pyWeekday_addDays p 2 hp, h5]
  · intro h6
    have hcd : congratulationDate p = addDays p 1 := by
      unfold congratulationDate
      rw [h6]
      simp
    refine ⟨hcd, ?_⟩
    rw [hcd, pyWeekday_addDays p 1 hp, h6]
  · intro hlt
    unfold congratulationDate
    rw [if_neg]
    simp only [Bool.or_eq_true, decide_eq_true_eq, not_or]
    omega

/-- C4 (witness): 22-12-2024 is a Sunday; its congratulation date is
one day later and falls on a Monday. -/
theorem congratulation_weekend_shift_witness :
    congratulationDate ⟨2024, 12, 22⟩ = addDays ⟨2024, 12, 22⟩ 1 ∧
    pyWeekday (congratulationDate ⟨2024, 12, 22⟩) = 0 :=
  (congratulation_weekend_shift ⟨2024, 12, 22⟩ (by decide)).2.1 (by decide)

theorem processRecord_eq (today : PDate) (r : Record) :
    processRecord today r =
      if includedByClaim today r = true then some (emittedEntry today r) else none := by
  unfold processRecord includedByClaim emittedEntry
  cases hb : r.birthday with
  | none => simp
  | some b =>
    by_cases hc : 0 ≤ daysDiff today b ∧ daysDiff today b ≤ 7 <;> simp [hc]

/-- C5: the scheduler emits exactly one row per record that has a
birthday set and whose projected date lies within [0, 7] days of
today, and that row carries the congratulation date; records with no
birthday or a day difference outside [0, 7] produce nothing. -/
theorem upcoming_inclusion_iff (book : List Record) (today : PDate) :
    get_upcoming_birthdays book today =
      (book.filter (includedByClaim today)).map (emittedEntry today) := by
  induction book with
  | nil => rfl
  | cons r rest ih =>
    simp only [get_upcoming_birthdays] at ih ⊢
    rw [List.filterMap_cons, processRecord_eq, List.filter_cons]
    by_cases hc : includedByClaim today r = true
    · simp [hc, ih]
    · simp [hc, ih]

/-- C6: `Phone` construction succeeds exactly on strings of ten
decimal digits, and fails with the phone validation error
otherwise. -/
theorem phone_ok_iff (s : List Char) :
    (phoneInit s = .ok s ↔ (s.length = 10 ∧ ∀ c ∈ s, isDigitCh c = true)) ∧
    ((s.length ≠ 10 ∨ ¬(∀ c ∈ s, isDigitCh c = true)) →
      phoneInit s = .error .badPhone) := by
  unfold phoneInit
  by_cases hc : ¬ pyIsdigit s = true ∨ s.length ≠ 10
  · rw [if_pos hc]
    constructor
    · constructor
      · intro h
        exact absurd h (by simp)
      · intro h
        obtain ⟨hlen, hall⟩ := h
        exfalso
        rcases hc with hc | hc
        · apply hc
          unfold pyIsdigit
          have hne : s ≠ [] := by
            intro he
            rw [he] at hlen
            simp at hlen
          refine (Bool.and_eq_true _ _).mpr ⟨?_, ?_⟩
          · simp [List.isEmpty_iff, hne]
          · exact List.all_eq_true.mpr hall
        · exact hc hlen
    · intro _
      rfl
  · rw [if_neg hc]
    push_neg at hc
    obtain ⟨hdig, hlen⟩ := hc
    have hall : ∀ c ∈ s, isDigitCh c = true := by
      unfold pyIsdigit at hdig
      have := (Bool.and_eq_true _ _).mp hdig
      exact List.all_eq_true.mp this.2
    constructor
    · constructor
      · intro _
        exact ⟨hlen, hall⟩
      · intro _
        rfl
    · intro hcontra
      rcases hcontra with h | h
      · exact absurd hlen h
      · exact absurd hall h

/-- C6 (witness): the characterization applied at a valid ten-digit
string and at a short string. -/
theorem phone_ok_iff_witness :
    phoneInit ['0', '9', '8', '7', '6', '5', '4', '3', '2', '1'] =
      .ok ['0', '9', '8', '7', '6', '5', '4', '3', '2', '1'] ∧
    phoneInit ['1', '2', '3'] = .error .badPhone :=
  ⟨(phone_ok_iff ['0', '9', '8', '7', '6', '5', '4', '3', '2', '1']).1.mpr
      ⟨by decide, by decide⟩,
    (phone_ok_iff ['1', '2', '3']).2 (Or.inl (by decide))⟩

/-- C7 (counterexample): constructing a `Name` from the empty string
succeeds even though its length 0 is not in the claimed range
1..21. -/
theorem name_empty_ok :
    nameInit [] = .ok [] ∧ ([] : List Char).length = 0 :=
  ⟨rfl, rfl⟩

/-- C7 (amended): `Name` construction succeeds exactly when the value
is at most 21 characters long — no minimum length is enforced, the
empty string included — and fails with the name validation error when
the length exceeds 21. -/
theorem name_ok_iff (s : List Char) :
    (nameInit s = .ok s ↔ s.length ≤ 21) ∧
    (s.length > 21 → nameInit s = .error .badName) := by
  unfold nameInit
  by_cases hc : s.length > 21
  · rw [if_pos hc]
    constructor
    · constructor
      · intro h
        exact absurd h (by simp)
      · intro h
        omega
    · intro _
      rfl
  · rw [if_neg hc]
    constructor
    · constructor
      · intro _
        omega
      · intro _
        rfl
    · intro h
      exact absurd h hc

/-- C7 (witness): the amended characterization applied at a 22-long
and a 21-long string. -/
theorem name_ok_iff_witness :
    nameInit (List.replicate 22 'a') = .error .badName ∧
    nameInit (List.replicate 21 'a') = .ok (List.replicate 21 'a') :=
  ⟨(name_ok_iff (List.replicate 22 'a')).2 (by decide),
    (name_ok_iff (List.replicate 21 'a')).1.mpr (by decide)⟩

/-- C8: a value with no `-` at all fails with the bad-format error;
a value that contains `-` but that `strptime` rejects fails with the
nonexistent-date error carrying the offending value. -/
theorem birthday_error_kinds (s : List Char) :
    ('-' ∉ s → birthdayInit s = .error .badFormat) ∧
    ('-' ∈ s → strptimeDMY s = none →
      birthdayInit s = .error (.nonexistentDate s)) := by
  constructor
  · intro h
    unfold birthdayInit
    rw [strptimeDMY_none_of_no_dash s h]
    rw [if_neg h]
  · intro hmem hnone
    unfold birthdayInit
    rw [hnone, if_pos hmem]

/-- C8 (witness): the classification applied to a dash-free value and
to an out-of-range date. -/
theorem birthday_error_kinds_witness :
    birthdayInit ['2', '2', '1', '2', '1', '9', '9', '0'] = .error .badFormat ∧
    birthdayInit ['3', '2', '-', '0', '1', '-', '2', '0', '0', '0'] =
      .error (.nonexistentDate ['3', '2', '-', '0', '1', '-', '2', '0', '0', '0']) :=
  ⟨(birthday_error_kinds ['2', '2', '1', '2', '1', '9', '9', '0']).1 (by decide),
    (birthday_error_kinds ['3', '2', '-', '0', '1', '-', '2', '0', '0', '0']).2
      (by decide) (by rfl)⟩

theorem find_phone_isSome_of_mem (phones : List (List Char)) (p : List Char)
    (h : p ∈ phones) : (find_phone phones p).isSome = true := by
  induction phones with
  | nil => cases h
  | cons q rest ih =>
    unfold find_phone
    by_cases hq : (q == p) = true
    · simp [List.find?, hq]
    · simp only [List.find?, hq]
      rcases List.mem_cons.mp h with he | hm
      · exact absurd (by simp [he]) hq
      · unfold find_phone at ih
        exact ih hm

/-- C9: when the record holds `old` and the replacement fails `Phone`
validation, `edit_phone` raises the phone validation error before any
mutation: the phone list carried out by the error is exactly the
original one. -/
theorem edit_phone_invalid_new (phones : List (List Char)) (oldP newP : List Char)
    (hold : oldP ∈ phones) (hnew : phoneInit newP = .error .badPhone) :
    edit_phone phones oldP newP = .error (.badPhone, phones) := by
  unfold edit_phone
  have hsome := find_phone_isSome_of_mem phones oldP hold
  have hnone : (find_phone phones oldP).isNone = false := by
    cases hfp : find_phone phones oldP
    · rw [hfp] at hsome
      simp at hsome
    · rfl
  rw [if_neg (by rw [hnone]; simp)]
  rw [hnew]

/-- C9 (witness): the atomicity theorem applied with a stored
ten-digit phone and a three-character replacement. -/
theorem edit_phone_invalid_new_witness :
    edit_phone [['0', '9', '8', '7', '6', '5', '4', '3', '2', '1']]
      ['0', '9', '8', '7', '6', '5', '4', '3', '2', '1'] ['1', '2', '3'] =
      .error (.badPhone, [['0', '9', '8', '7', '6', '5', '4', '3', '2', '1']]) :=
  edit_phone_invalid_new _ _ _ (by decide) (by rfl)

/-- C10: threading the visited records through the scheduler loop
returns the book unchanged alongside the same output rows: the
computation reads records but neither modifies, adds, nor removes
any. -/
theorem upcoming_preserves_book (book : List Record) (today : PDate) :
    get_upcoming_birthdaysSt book today = (get_upcoming_birthdays book today, book) := by
  induction book with
  | nil => rfl
  | cons r rest ih =>
    simp only [get_upcoming_birthdaysSt, get_upcoming_birthdays, List.filterMap_cons] at ih ⊢
    rw [ih]
    cases hp : processRecord today r <;> simp [hp]
